import Mathlib

/-!
Verification of `nerfstudio/process_data/opf_utils.py` (OPF-to-nerfstudio
conversion helpers).

The Python module works with JSON-like dictionaries (`Dict[str, object]`)
whose values are numbers (Python `int`/`float`, modelled as `Rat`; Python's
`==` across `int`/`float` is numeric equality, which the `Rat` model
preserves), strings, and 4x4 integer matrices.  Dictionaries are modelled
as insertion-ordered association lists with unique keys, matching CPython
dict semantics (insertion order preserved, `del` removes the key in place,
`dict.get` returns `None` - here `Option.none` - for a missing key).

A crucial feature of the source that the embedding keeps is *aliasing*:
`extract_common_intrinsics` binds `common_intrinsics = intrinsics_list[0]`
without copying, so the deletions it performs are visible to the caller
through the first record.  The embedding therefore exposes both the value
returned and the post-call state of the input list / sensor map.
-/

namespace OpfUtils

/-- A JSON-like value as stored in the dictionaries of `opf_utils.py`:
a number (Python int/float, modelled as a rational), a string, or a
4x4 integer matrix (list of lists). -/
inductive Val where
  | num (q : Rat)
  | str (s : String)
  | mat (m : List (List Int))
deriving DecidableEq, Repr

/-- A Python `Dict[str, object]`: an insertion-ordered association list.
All dictionaries built by the source have unique keys; lemmas that depend
on uniqueness carry a `Nodup` hypothesis. -/
abbrev Dict := List (String × Val)

/-- `d.get(k)` — first binding of `k`, `none` when absent (Python `None`). -/
def dget (d : Dict) (k : String) : Option Val :=
  (d.find? (fun kv => kv.1 = k)).map (·.2)

/-- The keys of a dictionary, in insertion order. -/
def dkeys (d : Dict) : List String := d.map (·.1)

/-- `key in d` (Python membership test on a dict). -/
def dmem (d : Dict) (k : String) : Bool := d.any (fun kv => kv.1 = k)

/-- `del d[k]` when `k` is present, identity otherwise (the source wraps
`del` in `try/except KeyError: pass`). -/
def derase (d : Dict) (k : String) : Dict := d.filter (fun kv => kv.1 ≠ k)

/-- `d[k] = v`: update in place when `k` exists (keeping its position),
append otherwise — CPython dict-literal merge semantics. -/
def dinsert (d : Dict) (k : String) (v : Val) : Dict :=
  if d.any (fun kv => kv.1 = k) then d.map (fun kv => if kv.1 = k then (k, v) else kv)
  else d ++ [(k, v)]

/-- `{**d, **kvs}` — extend `d` with the bindings of `kvs`, in order. -/
def dextend (d : Dict) (kvs : List (String × Val)) : Dict :=
  kvs.foldl (fun a kv => dinsert a kv.1 kv.2) d

/-- Python `int(x)` on a float: truncation toward zero. -/
def int_trunc (q : Rat) : Int := q.num / (q.den : Int)

/-- `np.round`: IEEE-754 rounding, half to even ("banker's rounding"). -/
def roundHalfEven (q : Rat) : Int :=
  let f : Int := ⌊q⌋
  if q - f < 1/2 then f
  else if q - f > 1/2 then f + 1
  else if 2 ∣ f then f else f + 1

/-- `np.linspace(start, stop, num)`: `num` evenly spaced samples over the
closed interval `[start, stop]` (endpoint included; `num = 1` gives just
`start`, `num = 0` an empty array). -/
def np_linspace (start stop : Rat) (num : Nat) : List Rat :=
  if num = 0 then []
  else if num = 1 then [start]
  else (List.range num).map (fun i => start + (stop - start) * i / ((num : Rat) - 1))

/-- The index array `np.round(np.linspace(0, n - 1, m))` computed by
`filter_cameras` when it subsamples `n` cameras down to `m`. -/
def filter_cameras_idx (n m : Nat) : List Int :=
  (np_linspace 0 ((n : Rat) - 1) m).map roundHalfEven

/--
`filter_cameras(camera_list, max_num_images)`.

The source computes `idx = np.round(np.linspace(0, n - 1, max_num_images))`
— an array of `float64` — and then evaluates
`[camera_list.cameras[i] for i in idx]`.  Three behaviors follow:
* `max_num_images = -1` or `n <= max_num_images`: the input is returned;
* `max_num_images < 0` (other than `-1`): `np.linspace` raises
  `ValueError` (negative sample count);
* otherwise, if the index array is empty (`max_num_images = 0`) the
  comprehension yields `[]`; if it is non-empty, indexing a Python list
  with a `float64` (which has no `__index__`) raises `TypeError`, so the
  comprehension never produces a subsample (upstream nerfstudio applies
  `.astype(int)` here; this module does not).
-/
def filter_cameras (cameras : List α) (max_num_images : Int) : Except String (List α) :=
  if max_num_images ≠ -1 ∧ (cameras.length : Int) > max_num_images then
    if max_num_images < 0 then
      Except.error "ValueError: Number of samples must be non-negative"
    else if (filter_cameras_idx cameras.length max_num_images.toNat).isEmpty then
      Except.ok []
    else
      Except.error "TypeError: list indices must be integers or slices, not numpy.float64"
  else
    Except.ok cameras

/-- Sensor calibration internals (`sensor.internals`).  The fixed shapes
(2-vector principal point, 3-vector radial and 2-vector tangential
distortion) are a precondition guaranteed by the upstream parser, so they
are modelled as tuples. -/
structure SensorInternals where
  focal_length_px : Rat
  principal_point_px : Rat × Rat
  radial_distortion : Rat × Rat × Rat
  tangential_distortion : Rat × Rat
deriving DecidableEq, Repr

/-- A `pyopf` sensor record. -/
structure Sensor where
  id : String
  internals : SensorInternals
deriving DecidableEq, Repr

/-- A camera record from the project's camera list (`CameraData`). -/
structure CameraData where
  id : String
  uri : String
deriving DecidableEq, Repr

/-- A record of the calibrated-pose list; the pose payload itself is
consumed only by the external `get_transform_matrix` collaborator, which
the assembler receives as a function argument. -/
structure CalibratedCamera where
  id : String
  sensor_id : String
deriving DecidableEq, Repr

/-- The fixed key set of an `IntrinsicsRecord`, in the insertion order
used by `extract_intrinsics`. -/
def FixedKeys : List String :=
  ["fl_x", "fl_y", "cx", "cy", "w", "h", "k1", "k2", "k3", "p1", "p2"]

/-- `extract_intrinsics(sensor, image_size_px)`. -/
def extract_intrinsics (sensor : Sensor) (image_size_px : Rat × Rat) : Dict :=
  [("fl_x", Val.num sensor.internals.focal_length_px),
   ("fl_y", Val.num sensor.internals.focal_length_px),
   ("cx", Val.num sensor.internals.principal_point_px.1),
   ("cy", Val.num sensor.internals.principal_point_px.2),
   ("w", Val.num (int_trunc image_size_px.1)),
   ("h", Val.num (int_trunc image_size_px.2)),
   ("k1", Val.num sensor.internals.radial_distortion.1),
   ("k2", Val.num sensor.internals.radial_distortion.2.1),
   ("k3", Val.num sensor.internals.radial_distortion.2.2),
   ("p1", Val.num sensor.internals.tangential_distortion.1),
   ("p2", Val.num sensor.internals.tangential_distortion.2)]

/-- One step of the reducer's inner loop:
`if common_intrinsics.get(key) != value: del common_intrinsics[key]`
(the `del` is a no-op when the key is already gone). -/
def reduceStep (c : Dict) (kv : String × Val) : Dict :=
  if dget c kv.1 = some kv.2 then c else derase c kv.1

/-- The reducer's pass over one record: `for key, value in intrinsics.items(): ...`. -/
def processRecord (c : Dict) (r : Dict) : Dict := r.foldl reduceStep c

/--
`extract_common_intrinsics(intrinsics_list)` — the value returned.

The source sets `common_intrinsics = intrinsics_list[0]` *without copying*
and iterates over every record (including the first, whose pass deletes
nothing since a dictionary with unique keys always agrees with itself).
-/
def extract_common_intrinsics (l : List Dict) : Dict :=
  match l with
  | [] => []
  | d0 :: _ => l.foldl processRecord d0

/-- The state of the caller's list *after* `extract_common_intrinsics`:
because `common_intrinsics` aliases `intrinsics_list[0]`, every deletion
is visible through the first record; the other records are untouched. -/
def extract_common_intrinsics_post (l : List Dict) : List Dict :=
  match l with
  | [] => []
  | _ :: rest => extract_common_intrinsics l :: rest

/-- The sensor table `sensor_id_to_intrinsics`: a Python dict from sensor
id to intrinsics record, insertion-ordered. -/
abbrev SMap := List (String × Dict)

/-- `sensor_id_to_intrinsics[k]` as an `Option`. -/
def slook (smap : SMap) (k : String) : Option Dict :=
  (smap.find? (fun p => p.1 = k)).map (·.2)

/-- One evaluation of
`extract_common_intrinsics(list(sensor_id_to_intrinsics.values()))`:
the returned common record, together with the state of the sensor table
afterwards (its first entry's dictionary is the aliased, shrunk record). -/
def reduceSensorMap (smap : SMap) : Dict × SMap :=
  let c := extract_common_intrinsics (smap.map (·.2))
  match smap with
  | [] => (c, [])
  | (k0, _) :: rest => (c, (k0, c) :: rest)

/-- The output document of `make_transforms`: the fixed camera-model tag,
the frame list, and the shared intrinsics splatted at the top level. -/
structure SceneDocument where
  camera_model : String
  frames : List Dict
  shared : Dict
deriving DecidableEq, Repr

/-- `.astype(int)` on the 4x4 pose matrix: entrywise truncation toward zero. -/
def truncMat (m : List (List Rat)) : List (List Int) := m.map (·.map int_trunc)

/--
The per-camera loop of `make_transforms`.  State threaded through the
iterations: the remaining cameras, the (mutated) sensor table, the frames
accumulated so far, and the value most recently bound to
`common_intrinsics` (`none` while the loop has not yet run an iteration).
`resolve` stands for `get_camera_absolute_path(·, project_dir)` and
`getT` for the external `get_transform_matrix(·, cam_flip=False)`.
-/
def mtLoop (resolve : CameraData → String) (getT : CalibratedCamera → List (List Rat))
    (calibrated : List CalibratedCamera) :
    List CameraData → SMap → List Dict → Option Dict →
      Except String (List Dict × Option Dict)
  | [], _, frames, last => Except.ok (frames, last)
  | cam :: rest, smap, frames, _ =>
    let path := resolve cam
    match calibrated.find? (fun cc => cc.id = cam.id) with
    | none => Except.error ("Could not find calibrated camera with id " ++ cam.id)
    | some cc =>
      let tm := truncMat (getT cc)
      let rs := reduceSensorMap smap
      match slook rs.2 cc.sensor_id with
      | none => Except.error ("KeyError: " ++ cc.sensor_id)
      | some sd =>
        let frame := dextend
          [("transform_matrix", Val.mat tm), ("file_path", Val.str path)]
          (sd.filter (fun kv => ¬ dmem rs.1 kv.1))
        mtLoop resolve getT calibrated rest rs.2 (frames ++ [frame]) (some rs.1)

/--
`make_transforms(camera_datas, calibrated_cameras, sensor_id_to_intrinsics,
project_dir)`.  When the camera list is empty the loop never binds
`common_intrinsics` and the trailing `**common_intrinsics` raises
`NameError`; this is modelled by the `none` case of the loop's last
binding.
-/
def make_transforms (resolve : CameraData → String)
    (getT : CalibratedCamera → List (List Rat))
    (camera_datas : List CameraData) (calibrated : List CalibratedCamera)
    (smap : SMap) : Except String SceneDocument :=
  match mtLoop resolve getT calibrated camera_datas smap [] none with
  | Except.error e => Except.error e
  | Except.ok (_, none) =>
      Except.error "NameError: name common_intrinsics is not defined"
  | Except.ok (frames, some c) => Except.ok ⟨"OPENCV", frames, c⟩

/-- `agreeB r kv` says record `r` does not force the reducer to delete the
binding `kv` from the accumulator: either `r` lacks the key, or it maps it
to the same value. -/
def agreeB (r : Dict) (kv : String × Val) : Bool :=
  match dget r kv.1 with
  | some vr => kv.2 = vr
  | none => true

/-- A camera for which one loop iteration of `make_transforms` completes
without raising: a calibrated record with its id exists, and that record's
sensor id is a key of the sensor table. -/
def Processes (calibrated : List CalibratedCamera) (smap : SMap) (cam : CameraData) : Prop :=
  ∃ cc, calibrated.find? (fun c2 => c2.id = cam.id) = some cc ∧
    (slook smap cc.sensor_id).isSome

/-! ### Concrete test fixtures

Two full eleven-key intrinsics records that differ only in `fl_x`
(`recA` for sensor `s1`, `recB` for sensor `s2`), one camera on sensor
`s1`, and trivial collaborators for path resolution and pose
computation. -/

/-- Intrinsics record of sensor `s1` (all eleven fixed keys, `fl_x = 100`). -/
def recA : Dict :=
  [("fl_x", Val.num 100), ("fl_y", Val.num 100), ("cx", Val.num 4), ("cy", Val.num 5),
   ("w", Val.num 1920), ("h", Val.num 1080), ("k1", Val.num 0), ("k2", Val.num 0),
   ("k3", Val.num 0), ("p1", Val.num 1), ("p2", Val.num 2)]

/-- Intrinsics record of sensor `s2`: identical to `recA` except `fl_x = 200`. -/
def recB : Dict :=
  [("fl_x", Val.num 200), ("fl_y", Val.num 100), ("cx", Val.num 4), ("cy", Val.num 5),
   ("w", Val.num 1920), ("h", Val.num 1080), ("k1", Val.num 0), ("k2", Val.num 0),
   ("k3", Val.num 0), ("p1", Val.num 1), ("p2", Val.num 2)]

/-- A two-sensor table whose first entry is `recA`. -/
def smapAB : SMap := [("s1", recA), ("s2", recB)]

/-- A camera with id `c1` and a relative image reference. -/
def cam0 : CameraData := ⟨"c1", "images/img1.jpg"⟩

/-- The calibrated-pose record matching `cam0`, on sensor `s1`. -/
def cc0 : CalibratedCamera := ⟨"c1", "s1"⟩

/-- A concrete stand-in for `get_camera_absolute_path(·, project_dir)`. -/
def resolve0 : CameraData → String := fun c => "/proj/" ++ c.uri

/-- A concrete stand-in for the external `get_transform_matrix`. -/
def gT0 : CalibratedCamera → List (List Rat) := fun _ =>
  [[1, 0, 0, 0], [0, 1, 0, 0], [0, 0, 1, 0], [0, 0, 0, 1]]

/-- The ten key/value pairs shared by `recA` and `recB` (everything but `fl_x`). -/
def sharedAB : Dict :=
  [("fl_y", Val.num 100), ("cx", Val.num 4), ("cy", Val.num 5),
   ("w", Val.num 1920), ("h", Val.num 1080), ("k1", Val.num 0), ("k2", Val.num 0),
   ("k3", Val.num 0), ("p1", Val.num 1), ("p2", Val.num 2)]

/-- The frame `make_transforms` actually emits for `cam0` over `smapAB`:
it carries no intrinsics keys at all. -/
def frameAB : Dict :=
  [("transform_matrix", Val.mat [[1, 0, 0, 0], [0, 1, 0, 0], [0, 0, 1, 0], [0, 0, 0, 1]]),
   ("file_path", Val.str "/proj/images/img1.jpg")]

/-- The document `make_transforms` actually produces for `cam0` over
`smapAB`. -/
def docAB : SceneDocument := ⟨"OPENCV", [frameAB], sharedAB⟩

/-! ### C1, C2, C3 — consequences of the missing copy / unbound loop variable -/

/-- **C1.** The claim says `extract_common_intrinsics` never mutates the
records passed to it.  It does: `common_intrinsics` aliases
`intrinsics_list[0]`, so on `[recA, recB]` (which differ only in `fl_x`)
the call deletes `fl_x` from the caller's first record in place. -/
theorem extract_common_intrinsics_mutates :
    extract_common_intrinsics_post [recA, recB] = [derase recA "fl_x", recB] ∧
      extract_common_intrinsics_post [recA, recB] ≠ [recA, recB] := by
  constructor
  · rfl
  · decide

/-- **C2.** The claim says an empty camera list yields a document with an
empty frame list and no shared keys.  Instead, `common_intrinsics` is
assigned only inside the per-camera loop, so with no cameras the trailing
`**common_intrinsics` raises `NameError`. -/
theorem make_transforms_empty_cameras_name_error
    (resolve : CameraData → String) (getT : CalibratedCamera → List (List Rat))
    (calibrated : List CalibratedCamera) (smap : SMap) :
    make_transforms resolve getT [] calibrated smap =
      Except.error "NameError: name common_intrinsics is not defined" := rfl

/-- **C3.** The claim says every intrinsics key not promoted to the top
level appears inside every frame whose camera uses that sensor.  On
`smapAB` the key `fl_x` is not shared (hence not promoted), yet the frame
emitted for the camera on sensor `s1` does not contain `fl_x` at all: the
reducer deleted it from `s1`'s record in place before the frame was
built, so the value `100` is lost. -/
theorem make_transforms_loses_unshared_key :
    make_transforms resolve0 gT0 [cam0] [cc0] smapAB = Except.ok docAB ∧
      "fl_x" ∉ dkeys docAB.shared ∧
      ∀ f ∈ docAB.frames, dget f "fl_x" = none := by
  refine ⟨rfl, by decide, by decide⟩

/-! ### C4, C5 — `filter_cameras` on degenerate and filtering counts -/

/-- **C4, counterexample.** The claim says `max_count = 0` performs no
filtering.  On a one-element list it returns the empty list instead
(`np.linspace(0, 0, 0)` is empty, so the comprehension selects nothing). -/
theorem filter_cameras_zero_not_identity :
    filter_cameras [(0 : Nat)] 0 = Except.ok [] ∧
      filter_cameras [(0 : Nat)] 0 ≠ Except.ok [0] := by
  refine ⟨rfl, fun h => ?_⟩
  have h2 : Except.ok ([] : List Nat) = Except.ok [0] := h
  simp at h2

/-- **C4, amended.** `max_count = 0` returns the empty list (so it equals
the input only for the empty input), and a negative `max_count` other
than `-1` makes `np.linspace` raise `ValueError`; "no filtering" happens
only for `max_count = -1` or `max_count ≥ len(cameras)`. -/
theorem filter_cameras_zero_and_negative (cameras : List α) :
    filter_cameras cameras 0 = Except.ok [] ∧
      ∀ m : Int, m < -1 →
        filter_cameras cameras m =
          Except.error "ValueError: Number of samples must be non-negative" := by
  constructor
  · cases cameras with
    | nil => rfl
    | cons a l =>
      simp only [filter_cameras]
      rw [if_pos, if_neg, if_pos]
      · rfl
      · decide
      · exact ⟨by decide, by simp⟩
  · intro m hm
    simp only [filter_cameras]
    rw [if_pos, if_pos]
    · omega
    · exact ⟨by omega, by omega⟩

/-- **C5.** The claim says a positive `max_count < len(cameras)` yields
exactly `max_count` cameras at evenly spaced ascending indices.  The code
never produces such a subsample: `np.round(np.linspace(...))` is an array
of `float64`, and indexing the Python camera list with a `float64` raises
`TypeError` (upstream nerfstudio casts with `.astype(int)`; this module
omits the cast).  Evaluated here on three cameras with `max_count = 2`. -/
theorem filter_cameras_filtering_type_error :
    filter_cameras [(0 : Nat), 1, 2] 2 =
      Except.error "TypeError: list indices must be integers or slices, not numpy.float64" := by
  rfl

/-! ### C10 — `extract_intrinsics` -/

/-- **C10.** For every sensor and image size, the produced record has
`fl_x = fl_y` (both the sensor's single focal-length scalar), exactly the
eleven fixed keys in their fixed order, and `w`/`h` equal to the integer
truncations of `image_size_px[0]` and `image_size_px[1]`. -/
theorem extract_intrinsics_spec (sensor : Sensor) (image_size_px : Rat × Rat) :
    dget (extract_intrinsics sensor image_size_px) "fl_x" =
        some (Val.num sensor.internals.focal_length_px) ∧
      dget (extract_intrinsics sensor image_size_px) "fl_y" =
        some (Val.num sensor.internals.focal_length_px) ∧
      dkeys (extract_intrinsics sensor image_size_px) = FixedKeys ∧
      dget (extract_intrinsics sensor image_size_px) "w" =
        some (Val.num (int_trunc image_size_px.1)) ∧
      dget (extract_intrinsics sensor image_size_px) "h" =
        some (Val.num (int_trunc image_size_px.2)) :=
  ⟨rfl, rfl, rfl, rfl, rfl⟩

/-! ### Dictionary lemmas -/

theorem dget_cons (kv : String × Val) (d : Dict) (k : String) :
    dget (kv :: d) k = if kv.1 = k then some kv.2 else dget d k := by
  by_cases h : kv.1 = k
  · simp [dget, List.find?_cons_of_pos, h]
  · simp only [dget]
    rw [List.find?_cons_of_neg _ (by simpa using h), if_neg h]

theorem dget_eq_none (d : Dict) (k : String) : dget d k = none ↔ k ∉ dkeys d := by
  rw [dget, Option.map_eq_none', List.find?_eq_none, dkeys]
  constructor
  · intro h hk
    obtain ⟨kv, hkv, hk1⟩ := List.mem_map.mp hk
    exact h kv hkv (by simp [hk1])
  · intro h kv hkv hp
    have hk1 : kv.1 = k := by simpa using hp
    exact h (hk1 ▸ List.mem_map_of_mem _ hkv)

theorem dget_of_mem_nodup {d : Dict} (hd : (dkeys d).Nodup) {kv : String × Val}
    (h : kv ∈ d) : dget d kv.1 = some kv.2 := by
  induction d with
  | nil => cases h
  | cons a d ih =>
    rw [dkeys, List.map_cons, List.nodup_cons] at hd
    rcases List.mem_cons.mp h with rfl | h'
    · rw [dget_cons, if_pos rfl]
    · have hne : a.1 ≠ kv.1 := fun he => hd.1 (he ▸ List.mem_map_of_mem _ h')
      rw [dget_cons, if_neg hne]
      exact ih hd.2 h'

theorem mem_of_dget {d : Dict} {k : String} {v : Val} (h : dget d k = some v) :
    (k, v) ∈ d := by
  rw [dget, Option.map_eq_some'] at h
  obtain ⟨kv, hfind, hv⟩ := h
  have hk : kv.1 = k := by simpa using List.find?_some hfind
  have hm := List.mem_of_find?_eq_some hfind
  have : kv = (k, v) := Prod.ext hk hv
  exact this ▸ hm

theorem dget_isSome_of_mem_keys {d : Dict} {k : String} (h : k ∈ dkeys d) :
    ∃ v, dget d k = some v := by
  cases hv : dget d k with
  | none => exact absurd h ((dget_eq_none d k).mp hv)
  | some v => exact ⟨v, rfl⟩

theorem dmem_iff (d : Dict) (k : String) : dmem d k = true ↔ k ∈ dkeys d := by
  rw [dmem, List.any_eq_true, dkeys]
  constructor
  · intro ⟨kv, hkv, hp⟩
    have hk1 : kv.1 = k := by simpa using hp
    exact hk1 ▸ List.mem_map_of_mem _ hkv
  · intro hk
    obtain ⟨kv, hkv, hk1⟩ := List.mem_map.mp hk
    exact ⟨kv, hkv, by simp [hk1]⟩

theorem dkeys_filter_sublist (d : Dict) (p : String × Val → Bool) :
    (dkeys (d.filter p)).Sublist (dkeys d) :=
  (List.filter_sublist d).map _

theorem nodup_dkeys_filter {d : Dict} (hd : (dkeys d).Nodup) (p : String × Val → Bool) :
    (dkeys (d.filter p)).Nodup :=
  (dkeys_filter_sublist d p).nodup hd

theorem dget_filter {d : Dict} (hd : (dkeys d).Nodup) (p : String × Val → Bool)
    (k : String) :
    dget (d.filter p) k =
      (dget d k).bind (fun v => if p (k, v) then some v else none) := by
  induction d with
  | nil => rfl
  | cons a d ih =>
    rw [dkeys, List.map_cons, List.nodup_cons] at hd
    by_cases hk : a.1 = k
    · have hnone : dget d k = none := (dget_eq_none d k).mpr (hk ▸ hd.1)
      by_cases hp : p a
      · rw [List.filter_cons_of_pos hp, dget_cons, if_pos hk, dget_cons, if_pos hk]
        have : p (k, a.2) = true := by rwa [← hk]
        simp [this]
      · rw [List.filter_cons_of_neg (by simpa using hp), dget_cons, if_pos hk]
        have h1 : dget (d.filter p) k = none := by
          rw [dget_eq_none]
          exact fun hmem => (hk ▸ hd.1) ((dkeys_filter_sublist d p).subset hmem)
        have : p (k, a.2) = false := by rw [← hk]; simpa using hp
        simp [h1, this]
    · have htail : dget ((a :: d).filter p) k = dget (d.filter p) k := by
        by_cases hp : p a
        · rw [List.filter_cons_of_pos hp, dget_cons, if_neg hk]
        · rw [List.filter_cons_of_neg (by simpa using hp)]
      rw [htail, dget_cons, if_neg hk, ih hd.2]

theorem agreeB_self {r : Dict} (hr : (dkeys r).Nodup) {kv : String × Val}
    (h : kv ∈ r) : agreeB r kv = true := by
  rw [agreeB, dget_of_mem_nodup hr h]
  simp

/-! ### The reducer as a filter

With unique keys, one pass of the reducer over a record `r` keeps exactly
the accumulator bindings that `r` agrees with, and the whole fold keeps
exactly the bindings of the first record that every record agrees with. -/

theorem derase_eq_filter (d : Dict) (k : String) :
    derase d k = d.filter (fun kv => kv.1 ≠ k) := rfl

theorem processRecord_eq_filter {c r : Dict} (hc : (dkeys c).Nodup)
    (hr : (dkeys r).Nodup) :
    processRecord c r = c.filter (agreeB r) := by
  induction r generalizing c with
  | nil =>
    rw [processRecord, List.foldl_nil]
    have : ∀ kv ∈ c, agreeB ([] : Dict) kv = true := fun kv _ => rfl
    rw [List.filter_congr this, List.filter_true]
  | cons a r' ih =>
    rw [dkeys, List.map_cons, List.nodup_cons] at hr
    have step : processRecord c (a :: r') = processRecord (reduceStep c a) r' := rfl
    by_cases hv : dget c a.1 = some a.2
    · rw [step, reduceStep, if_pos hv, ih hc hr.2]
      refine List.filter_congr fun kv hkv => ?_
      by_cases hk : kv.1 = a.1
      · have h1 : dget c kv.1 = some kv.2 := dget_of_mem_nodup hc hkv
        have h2 : kv.2 = a.2 := Option.some.inj ((hk ▸ h1).symm.trans hv)
        have hr'none : dget r' kv.1 = none :=
          (dget_eq_none r' kv.1).mpr (hk ▸ hr.1)
        rw [agreeB, hr'none, agreeB, dget_cons, if_pos hk.symm]
        simp [h2]
      · rw [agreeB, agreeB, dget_cons, if_neg (fun he => hk he.symm)]
    · rw [step, reduceStep, if_neg hv, derase_eq_filter,
        ih (nodup_dkeys_filter hc _) hr.2, List.filter_filter]
      refine List.filter_congr fun kv hkv => ?_
      by_cases hk : kv.1 = a.1
      · have h1 : dget c kv.1 = some kv.2 := dget_of_mem_nodup hc hkv
        have h2 : kv.2 ≠ a.2 := fun he => hv (by rw [← hk, h1, he])
        have hl : (agreeB r' kv && decide (kv.1 ≠ a.1)) = false := by
          simp [hk]
        rw [hl, agreeB, dget_cons, if_pos hk.symm]
        simp [h2]
      · have hl : (agreeB r' kv && decide (kv.1 ≠ a.1)) = agreeB r' kv := by
          simp [hk]
        rw [hl, agreeB, agreeB, dget_cons, if_neg (fun he => hk he.symm)]

theorem foldl_processRecord_eq_filter {rs : List Dict} {c : Dict}
    (hc : (dkeys c).Nodup) (hrs : ∀ r ∈ rs, (dkeys r).Nodup) :
    rs.foldl processRecord c = c.filter (fun kv => rs.all (fun r => agreeB r kv)) := by
  induction rs generalizing c with
  | nil =>
    rw [List.foldl_nil]
    have : ∀ kv ∈ c, ([] : List Dict).all (fun r => agreeB r kv) = true :=
      fun kv _ => rfl
    rw [List.filter_congr this, List.filter_true]
  | cons r rs' ih =>
    rw [List.foldl_cons,
      processRecord_eq_filter hc (hrs r (List.mem_cons_self r rs')),
      ih (nodup_dkeys_filter hc _) (fun r' hr' => hrs r' (List.mem_cons_of_mem r hr')),
      List.filter_filter]
    refine List.filter_congr fun kv _ => ?_
    rw [List.all_cons, Bool.and_comm]

theorem extract_common_intrinsics_eq_filter {d0 : Dict} {rest : List Dict}
    (h : ∀ r ∈ d0 :: rest, (dkeys r).Nodup) :
    extract_common_intrinsics (d0 :: rest) =
      d0.filter (fun kv => (d0 :: rest).all (fun r => agreeB r kv)) :=
  foldl_processRecord_eq_filter (h d0 (List.mem_cons_self d0 rest)) h

theorem fixedKeys_nodup : (FixedKeys : List String).Nodup := by decide

/-! ### C7, C8 — extensional behavior of the reducer -/

/-- **C7.** `extract_common_intrinsics` returns the empty mapping on the
empty sequence; on any non-empty sequence of records carrying the fixed
key set, the result contains exactly the key/value pairs present with the
identical value in every input record. -/
theorem extract_common_intrinsics_exact (l : List Dict) :
    extract_common_intrinsics ([] : List Dict) = [] ∧
      (l ≠ [] → (∀ r ∈ l, dkeys r = FixedKeys) →
        ∀ k v, dget (extract_common_intrinsics l) k = some v ↔
          ∀ r ∈ l, dget r k = some v) := by
  refine ⟨rfl, ?_⟩
  intro hne hkeys k v
  obtain ⟨d0, rest, rfl⟩ : ∃ d0 rest, l = d0 :: rest := by
    cases l with
    | nil => exact absurd rfl hne
    | cons a l => exact ⟨a, l, rfl⟩
  have hnod : ∀ r ∈ d0 :: rest, (dkeys r).Nodup := fun r hr =>
    (hkeys r hr) ▸ fixedKeys_nodup
  rw [extract_common_intrinsics_eq_filter hnod,
    dget_filter (hnod d0 (List.mem_cons_self d0 rest)) _ k]
  constructor
  · intro hsome
    cases h0 : dget d0 k with
    | none => rw [h0] at hsome; simp at hsome
    | some v0 =>
      rw [h0, Option.some_bind] at hsome
      by_cases hall : ((d0 :: rest).all (fun r => agreeB r (k, v0))) = true
      · rw [if_pos hall] at hsome
        obtain rfl : v0 = v := Option.some.inj hsome
        intro r hr
        have hag := (List.all_eq_true.mp hall) r hr
        have hmem : k ∈ dkeys r := by
          rw [hkeys r hr, ← hkeys d0 (List.mem_cons_self d0 rest)]
          exact List.mem_map_of_mem _ (mem_of_dget h0)
        obtain ⟨vr, hvr⟩ := dget_isSome_of_mem_keys hmem
        rw [agreeB] at hag
        rw [hvr] at hag
        simp only [decide_eq_true_eq] at hag
        rw [hvr, hag]
      · rw [if_neg hall] at hsome
        cases hsome
  · intro hall
    have h0 : dget d0 k = some v := hall d0 (List.mem_cons_self d0 rest)
    rw [h0, Option.some_bind, if_pos]
    rw [List.all_eq_true]
    intro r hr
    rw [agreeB]
    rw [hall r hr]
    simp

theorem perm_all_eq {α : Type _} {l l' : List α} (h : l.Perm l') (f : α → Bool) :
    l.all f = l'.all f := by
  cases hb : l'.all f with
  | true =>
    rw [List.all_eq_true] at hb ⊢
    exact fun x hx => hb x (h.subset hx)
  | false =>
    rw [Bool.eq_false_iff] at hb ⊢
    intro hl
    rw [List.all_eq_true] at hl
    exact hb (List.all_eq_true.mpr fun x hx => hl x (h.symm.subset hx))

theorem filter_eq_of_eq_keys {a : Dict} :
    ∀ {b : Dict}, dkeys a = dkeys b →
      ∀ {Q : String × Val → Bool},
      (∀ kv ∈ a, ∀ kv' ∈ b, kv.1 = kv'.1 → (Q kv = true ∨ Q kv' = true) → kv = kv') →
      a.filter Q = b.filter Q := by
  induction a with
  | nil =>
    intro b hk Q _
    cases b with
    | nil => rfl
    | cons kv' b => simp [dkeys] at hk
  | cons kv a ih =>
    intro b hk Q hQ
    cases b with
    | nil => simp [dkeys] at hk
    | cons kv' b =>
      rw [dkeys, dkeys, List.map_cons, List.map_cons] at hk
      injection hk with hk1 hkrest
      have hQtail : ∀ x ∈ a, ∀ y ∈ b, x.1 = y.1 → (Q x = true ∨ Q y = true) → x = y :=
        fun x hx y hy => hQ x (List.mem_cons_of_mem kv hx) y (List.mem_cons_of_mem kv' hy)
      by_cases hq : Q kv = true
      · have heq : kv = kv' :=
          hQ kv (List.mem_cons_self kv a) kv' (List.mem_cons_self kv' b) hk1 (Or.inl hq)
        rw [List.filter_cons_of_pos hq, List.filter_cons_of_pos (heq ▸ hq), heq,
          ih hkrest hQtail]
      · have hq' : ¬Q kv' = true := fun hq' =>
          hq (by
            rw [hQ kv (List.mem_cons_self kv a) kv' (List.mem_cons_self kv' b) hk1
              (Or.inr hq')]
            exact hq')
        rw [List.filter_cons_of_neg hq, List.filter_cons_of_neg hq', ih hkrest hQtail]

/-- **C8.** As a value-level function on sequences of records with the
fixed key set, `extract_common_intrinsics` is invariant under permutation
of its input; on a two-element list holding the same record twice it
returns that record's mapping unchanged; on the empty list it returns the
empty mapping. -/
theorem extract_common_intrinsics_algebraic (l l' : List Dict) (r : Dict) :
    (l.Perm l' → (∀ d ∈ l, dkeys d = FixedKeys) →
        extract_common_intrinsics l = extract_common_intrinsics l') ∧
      (dkeys r = FixedKeys → extract_common_intrinsics [r, r] = r) ∧
      extract_common_intrinsics ([] : List Dict) = [] := by
  refine ⟨?_, ?_, rfl⟩
  · intro hp hkeys
    cases l with
    | nil => rw [← hp.symm.eq_nil]
    | cons d0 rest =>
      cases hl' : l' with
      | nil => exact absurd (hl' ▸ hp).eq_nil (by simp)
      | cons d0' rest' =>
        subst hl'
        have hkeys' : ∀ d ∈ d0' :: rest', dkeys d = FixedKeys := fun d hd =>
          hkeys d (hp.mem_iff.mpr hd)
        have hnod : ∀ d ∈ d0 :: rest, (dkeys d).Nodup := fun d hd =>
          (hkeys d hd) ▸ fixedKeys_nodup
        have hnod' : ∀ d ∈ d0' :: rest', (dkeys d).Nodup := fun d hd =>
          (hkeys' d hd) ▸ fixedKeys_nodup
        rw [extract_common_intrinsics_eq_filter hnod,
          extract_common_intrinsics_eq_filter hnod',
          List.filter_congr
            (fun kv _ => perm_all_eq hp.symm (fun r2 => agreeB r2 kv))]
        have hd0' : d0' ∈ d0 :: rest := hp.mem_iff.mpr (List.mem_cons_self d0' rest')
        refine filter_eq_of_eq_keys ?_ ?_
        · rw [hkeys d0 (List.mem_cons_self d0 rest), hkeys' d0' (List.mem_cons_self d0' rest')]
        · intro kv hkv kv' hkv' hk1 hQ
          rcases hQ with hQ | hQ
          · have hag := (List.all_eq_true.mp hQ) d0' hd0'
            rw [agreeB, hk1,
              dget_of_mem_nodup (hnod' d0' (List.mem_cons_self d0' rest')) hkv'] at hag
            simp only [decide_eq_true_eq] at hag
            exact Prod.ext hk1 hag
          · have hag := (List.all_eq_true.mp hQ) d0 (List.mem_cons_self d0 rest)
            rw [agreeB, ← hk1,
              dget_of_mem_nodup (hnod d0 (List.mem_cons_self d0 rest)) hkv] at hag
            simp only [decide_eq_true_eq] at hag
            exact Prod.ext hk1 hag.symm
  · intro hkr
    have hnodr : (dkeys r).Nodup := hkr ▸ fixedKeys_nodup
    have hnod : ∀ d ∈ [r, r], (dkeys d).Nodup := by
      intro d hd
      simp only [List.mem_cons, List.not_mem_nil, or_false] at hd
      rcases hd with rfl | rfl <;> exact hnodr
    rw [extract_common_intrinsics_eq_filter hnod]
    have htrue : ∀ kv ∈ r, ([r, r].all (fun r2 => agreeB r2 kv)) = true := by
      intro kv hkv
      simp [List.all_cons, agreeB_self hnodr hkv]
    rw [List.filter_congr htrue, List.filter_true]

/-! ### C6 — calibration matching -/

theorem slook_cons (p : String × Dict) (rest : SMap) (k : String) :
    slook (p :: rest) k = if p.1 = k then some p.2 else slook rest k := by
  by_cases h : p.1 = k
  · simp [slook, List.find?_cons_of_pos, h]
  · simp only [slook]
    rw [List.find?_cons_of_neg _ (by simpa using h), if_neg h]

/-- The reducer's in-place mutation changes the first sensor's record but
never the key set of the sensor table, so lookups succeed afterwards
exactly when they succeeded before. -/
theorem slook_reduce_isSome (smap : SMap) (k : String) :
    (slook (reduceSensorMap smap).2 k).isSome = (slook smap k).isSome := by
  cases smap with
  | nil => rfl
  | cons p rest =>
    obtain ⟨k0, d0⟩ := p
    show (slook ((k0, _) :: rest) k).isSome = (slook ((k0, d0) :: rest) k).isSome
    rw [slook_cons, slook_cons]
    by_cases h : k0 = k
    · rw [if_pos h, if_pos h]; rfl
    · rw [if_neg h, if_neg h]

theorem mtLoop_error_of_unmatched (resolve : CameraData → String)
    (getT : CalibratedCamera → List (List Rat)) (calibrated : List CalibratedCamera)
    (cam : CameraData) (hnone : ∀ cc ∈ calibrated, cc.id ≠ cam.id) :
    ∀ (pre post : List CameraData) (smap : SMap) (frames : List Dict)
      (last : Option Dict),
      (∀ c2 ∈ pre, Processes calibrated smap c2) →
      mtLoop resolve getT calibrated (pre ++ cam :: post) smap frames last =
        Except.error ("Could not find calibrated camera with id " ++ cam.id) := by
  have hfindnone : calibrated.find? (fun cc => cc.id = cam.id) = none :=
    List.find?_eq_none.mpr fun cc hcc => by simpa using hnone cc hcc
  intro pre
  induction pre with
  | nil =>
    intro post smap frames last _
    simp only [List.nil_append, mtLoop, hfindnone]
  | cons p pre' ih =>
    intro post smap frames last hpre
    obtain ⟨cc, hfind, hsome⟩ := hpre p (List.mem_cons_self p pre')
    have hsome' : (slook (reduceSensorMap smap).2 cc.sensor_id).isSome := by
      rw [slook_reduce_isSome]; exact hsome
    obtain ⟨sd, hsd⟩ := Option.isSome_iff_exists.mp hsome'
    simp only [List.cons_append, mtLoop, hfind, hsd]
    refine ih post (reduceSensorMap smap).2 _ _ ?_
    intro c2 hc2
    obtain ⟨cc2, hf2, hs2⟩ := hpre c2 (List.mem_cons_of_mem p hc2)
    exact ⟨cc2, hf2, by rw [slook_reduce_isSome]; exact hs2⟩

/-- **C6.** If a selected camera's id matches no record of the
calibrated-pose list (and every camera before it processes normally),
`make_transforms` fails with an error naming that camera's id, and no
document is returned; conversely, when matches exist, the *first*
matching record in list order supplies the sensor id and the pose,
regardless of any later record with the same id. -/
theorem make_transforms_matching :
    (∀ (resolve : CameraData → String) (getT : CalibratedCamera → List (List Rat))
        (calibrated : List CalibratedCamera) (smap : SMap)
        (pre post : List CameraData) (cam : CameraData),
        (∀ cc ∈ calibrated, cc.id ≠ cam.id) →
        (∀ c2 ∈ pre, Processes calibrated smap c2) →
        make_transforms resolve getT (pre ++ cam :: post) calibrated smap =
          Except.error ("Could not find calibrated camera with id " ++ cam.id)) ∧
      (∀ (resolve : CameraData → String) (getT : CalibratedCamera → List (List Rat))
          (smap : SMap) (cam : CameraData) (cpre cpost : List CalibratedCamera)
          (cc : CalibratedCamera) (sd : Dict),
          cc.id = cam.id → (∀ c2 ∈ cpre, c2.id ≠ cam.id) →
          slook (reduceSensorMap smap).2 cc.sensor_id = some sd →
          make_transforms resolve getT [cam] (cpre ++ cc :: cpost) smap =
            Except.ok ⟨"OPENCV",
              [dextend [("transform_matrix", Val.mat (truncMat (getT cc))),
                        ("file_path", Val.str (resolve cam))]
                 (sd.filter (fun kv => ¬ dmem (reduceSensorMap smap).1 kv.1))],
              (reduceSensorMap smap).1⟩) := by
  constructor
  · intro resolve getT calibrated smap pre post cam hnone hpre
    rw [make_transforms,
      mtLoop_error_of_unmatched resolve getT calibrated cam hnone pre post smap [] none hpre]
  · intro resolve getT smap cam cpre cpost cc sd hid hpre hsd
    have hfind : (cpre ++ cc :: cpost).find? (fun c2 => c2.id = cam.id) = some cc := by
      rw [List.find?_append,
        List.find?_eq_none.mpr (fun c2 hc2 => by simpa using hpre c2 hc2),
        Option.none_or]
      exact List.find?_cons_of_pos _ (by simpa using hid)
    simp only [make_transforms, mtLoop, hfind, hsd, List.nil_append]

/-! ### C9 — disjointness of shared and per-frame intrinsics -/

theorem mem_dkeys_dinsert (d : Dict) (k' : String) (v : Val) (k : String) :
    k ∈ dkeys (dinsert d k' v) ↔ k ∈ dkeys d ∨ k = k' := by
  rw [dinsert]
  by_cases h : d.any (fun kv => kv.1 = k')
  · rw [if_pos h]
    have hkeys : dkeys (d.map (fun kv => if kv.1 = k' then (k', v) else kv)) = dkeys d := by
      rw [dkeys, List.map_map, dkeys]
      refine List.map_congr_left fun kv _ => ?_
      by_cases hk : kv.1 = k'
      · simp [hk]
      · simp [hk]
    rw [hkeys]
    constructor
    · exact Or.inl
    · intro h2
      rcases h2 with h2 | rfl
      · exact h2
      · exact (dmem_iff d k).mp h
  · rw [if_neg h, dkeys, List.map_append]
    simp [dkeys]

theorem mem_dkeys_dextend (d : Dict) (kvs : List (String × Val)) (k : String) :
    k ∈ dkeys (dextend d kvs) ↔ k ∈ dkeys d ∨ k ∈ kvs.map (fun kv => kv.1) := by
  induction kvs generalizing d with
  | nil => simp [dextend, dkeys]
  | cons kv kvs ih =>
    rw [dextend, List.foldl_cons]
    show k ∈ dkeys (dextend (dinsert d kv.1 kv.2) kvs) ↔ _
    rw [ih, mem_dkeys_dinsert, List.map_cons, List.mem_cons]
    tauto

/-- Keys shared between a frame dictionary and the common record used to
filter its extra intrinsics can only be the two fixed frame tags. -/
theorem dkeys_frame_mem {tmv fpv : Val} {sd c0 : Dict} {k : String}
    (hkf : k ∈ dkeys (dextend [("transform_matrix", tmv), ("file_path", fpv)]
      (sd.filter (fun kv => ¬ dmem c0 kv.1))))
    (hk : k ∈ dkeys c0) :
    k = "transform_matrix" ∨ k = "file_path" := by
  rcases (mem_dkeys_dextend _ _ k).mp hkf with hbase | hextra
  · simpa [dkeys] using hbase
  · obtain ⟨kv, hkv, rfl⟩ := List.mem_map.mp hextra
    have hp := List.of_mem_filter hkv
    simp only [decide_eq_true_eq] at hp
    exact absurd ((dmem_iff c0 kv.1).mpr hk) hp

/-- Once the reducer has overwritten the first sensor record with the
common record, recomputing the common record changes nothing: the shrunk
first record already agrees with every other record on all its keys. -/
theorem extract_common_intrinsics_idem {d0 : Dict} {rest : List Dict}
    (h : ∀ r ∈ d0 :: rest, (dkeys r).Nodup) :
    extract_common_intrinsics (extract_common_intrinsics (d0 :: rest) :: rest) =
      extract_common_intrinsics (d0 :: rest) := by
  have h0 : (dkeys d0).Nodup := h d0 (List.mem_cons_self d0 rest)
  have hrest : ∀ r ∈ rest, (dkeys r).Nodup := fun r hr =>
    h r (List.mem_cons_of_mem d0 hr)
  rw [extract_common_intrinsics_eq_filter h]
  have hcnod : (dkeys (d0.filter
      (fun kv => (d0 :: rest).all fun r => agreeB r kv))).Nodup :=
    nodup_dkeys_filter h0 _
  have hnod' : ∀ r ∈ d0.filter (fun kv => (d0 :: rest).all fun r => agreeB r kv) :: rest,
      (dkeys r).Nodup := by
    intro r hr
    rcases List.mem_cons.mp hr with rfl | hr
    · exact hcnod
    · exact hrest r hr
  rw [extract_common_intrinsics_eq_filter hnod']
  have htrue : ∀ kv ∈ d0.filter (fun kv => (d0 :: rest).all fun r => agreeB r kv),
      ((d0.filter (fun kv => (d0 :: rest).all fun r => agreeB r kv) :: rest).all
        fun r => agreeB r kv) = true := by
    intro kv hkv
    have hkvQ := List.of_mem_filter hkv
    rw [List.all_cons, agreeB_self hcnod hkv, Bool.true_and, List.all_eq_true]
    intro r hr
    exact (List.all_eq_true.mp hkvQ) r (List.mem_cons_of_mem d0 hr)
  rw [List.filter_congr htrue, List.filter_true]

/-- After one evaluation, re-reducing the sensor table is the identity:
the mutated table is a fixpoint of `reduceSensorMap`. -/
theorem reduceSensorMap_fixpoint {smap : SMap}
    (h : ∀ p2 ∈ smap, (dkeys p2.2).Nodup) :
    reduceSensorMap (reduceSensorMap smap).2 =
      ((reduceSensorMap smap).1, (reduceSensorMap smap).2) := by
  cases smap with
  | nil => rfl
  | cons s0 rest =>
    obtain ⟨k0, d0⟩ := s0
    have hall : ∀ r ∈ d0 :: rest.map (fun x => x.2), (dkeys r).Nodup := by
      intro r hr
      rcases List.mem_cons.mp hr with rfl | hr
      · exact h (k0, r) (List.mem_cons_self _ _)
      · obtain ⟨p2, hp2, rfl⟩ := List.mem_map.mp hr
        exact h p2 (List.mem_cons_of_mem _ hp2)
    simp only [reduceSensorMap, List.map_cons]
    rw [extract_common_intrinsics_idem hall]

/-- The loop invariant behind C9: starting from a sensor-table fixpoint,
every frame the loop appends filters its extra intrinsics against the
same common record `c0` that ends up at the top level. -/
theorem mtLoop_frames_invariant (resolve : CameraData → String)
    (getT : CalibratedCamera → List (List Rat)) (calibrated : List CalibratedCamera) :
    ∀ (cams : List CameraData) (smap : SMap) (frames F : List Dict)
      (c0 : Dict) (lc : Option Dict),
      reduceSensorMap smap = (c0, smap) →
      mtLoop resolve getT calibrated cams smap frames (some c0) = Except.ok (F, lc) →
      lc = some c0 ∧
        ∀ f ∈ F, f ∈ frames ∨
          ∀ k, k ∈ dkeys c0 → k ∈ dkeys f →
            k = "transform_matrix" ∨ k = "file_path" := by
  intro cams
  induction cams with
  | nil =>
    intro smap frames F c0 lc hfix h
    simp only [mtLoop, Except.ok.injEq, Prod.mk.injEq] at h
    obtain ⟨rfl, rfl⟩ := h
    exact ⟨rfl, fun f hf => Or.inl hf⟩
  | cons cam rest ih =>
    intro smap frames F c0 lc hfix h
    have hfix1 : (reduceSensorMap smap).1 = c0 := by rw [hfix]
    have hfix2 : (reduceSensorMap smap).2 = smap := by rw [hfix]
    simp only [mtLoop, hfix1, hfix2] at h
    cases hfind : calibrated.find? (fun cc => cc.id = cam.id) with
    | none =>
      simp only [hfind] at h
      exact Except.noConfusion h
    | some cc =>
      simp only [hfind] at h
      cases hsd : slook smap cc.sensor_id with
      | none =>
        simp only [hsd] at h
        exact Except.noConfusion h
      | some sd =>
        simp only [hsd] at h
        obtain ⟨hlc, hFr⟩ := ih smap _ F c0 lc hfix h
        refine ⟨hlc, fun f hf => ?_⟩
        rcases hFr f hf with hf' | hgood
        · rcases List.mem_append.mp hf' with hf'' | hf''
          · exact Or.inl hf''
          · obtain rfl := List.mem_singleton.mp hf''
            exact Or.inr fun k hk hkf => dkeys_frame_mem hkf hk
        · exact Or.inr hgood

theorem mem_fixedKeys_ne_frame_tag {k : String} (h : k ∈ FixedKeys) :
    k ≠ "transform_matrix" ∧ k ≠ "file_path" := by
  simp only [FixedKeys, List.mem_cons, List.not_mem_nil, or_false] at h
  rcases h with rfl | rfl | rfl | rfl | rfl | rfl | rfl | rfl | rfl | rfl | rfl <;>
    exact ⟨by decide, by decide⟩

/-- **C9.** When the sensor records carry the fixed key set, every
document `make_transforms` produces satisfies the disjointness invariant:
no key of the top-level shared mapping occurs in any frame dictionary (in
particular not among any frame's intrinsics). -/
theorem make_transforms_shared_frame_disjoint
    (resolve : CameraData → String) (getT : CalibratedCamera → List (List Rat))
    (camera_datas : List CameraData) (calibrated : List CalibratedCamera)
    (smap : SMap) (hkeys : ∀ p2 ∈ smap, dkeys p2.2 = FixedKeys)
    (doc : SceneDocument)
    (hok : make_transforms resolve getT camera_datas calibrated smap = Except.ok doc) :
    ∀ f ∈ doc.frames, ∀ k ∈ dkeys doc.shared, k ∉ dkeys f := by
  have hnod : ∀ p2 ∈ smap, (dkeys p2.2).Nodup := fun p2 hp2 =>
    (hkeys p2 hp2) ▸ fixedKeys_nodup
  have hsub : ∀ k, k ∈ dkeys (reduceSensorMap smap).1 → k ∈ FixedKeys := by
    cases smap with
    | nil => intro k hk2; cases hk2
    | cons s0 srest =>
      intro k hk2
      obtain ⟨k0, d0⟩ := s0
      have hall : ∀ r ∈ d0 :: srest.map (fun x => x.2), (dkeys r).Nodup := by
        intro r hr
        rcases List.mem_cons.mp hr with rfl | hr
        · exact hnod (k0, r) (List.mem_cons_self _ _)
        · obtain ⟨p2, hp2, rfl⟩ := List.mem_map.mp hr
          exact hnod p2 (List.mem_cons_of_mem _ hp2)
      have hred : (reduceSensorMap ((k0, d0) :: srest)).1 =
          extract_common_intrinsics (d0 :: srest.map (fun x => x.2)) := rfl
      rw [hred, extract_common_intrinsics_eq_filter hall] at hk2
      have hs := (dkeys_filter_sublist d0 _).subset hk2
      rw [hkeys (k0, d0) (List.mem_cons_self _ _)] at hs
      exact hs
  unfold make_transforms at hok
  cases hloop : mtLoop resolve getT calibrated camera_datas smap [] none with
  | error e =>
    simp only [hloop] at hok
    exact Except.noConfusion hok
  | ok p =>
    obtain ⟨F, lc⟩ := p
    simp only [hloop] at hok
    cases lc with
    | none => exact Except.noConfusion hok
    | some c =>
      obtain rfl : SceneDocument.mk "OPENCV" F c = doc := Except.ok.inj hok
      cases camera_datas with
      | nil =>
        simp only [mtLoop, Except.ok.injEq, Prod.mk.injEq] at hloop
        exact absurd hloop.2 (by simp)
      | cons cam rest =>
        simp only [mtLoop] at hloop
        cases hfind : calibrated.find? (fun cc => cc.id = cam.id) with
        | none =>
          simp only [hfind] at hloop
          exact Except.noConfusion hloop
        | some cc =>
          simp only [hfind] at hloop
          cases hsd : slook (reduceSensorMap smap).2 cc.sensor_id with
          | none =>
            simp only [hsd] at hloop
            exact Except.noConfusion hloop
          | some sd =>
            simp only [hsd] at hloop
            have hfix : reduceSensorMap (reduceSensorMap smap).2 =
                ((reduceSensorMap smap).1, (reduceSensorMap smap).2) :=
              reduceSensorMap_fixpoint hnod
            obtain ⟨hlc, hFr⟩ := mtLoop_frames_invariant resolve getT calibrated rest
              (reduceSensorMap smap).2 _ F (reduceSensorMap smap).1 (some c) hfix hloop
            obtain rfl : c = (reduceSensorMap smap).1 := Option.some.inj hlc
            intro f hf k hk
            have hk' : k ∈ FixedKeys := hsub k hk
            intro hkf
            have htag : k = "transform_matrix" ∨ k = "file_path" := by
              rcases hFr f hf with hf' | hgood
              · rw [List.nil_append] at hf'
                obtain rfl := List.mem_singleton.mp hf'
                exact dkeys_frame_mem hkf hk
              · exact hgood k hk hkf
            rcases htag with rfl | rfl
            · exact (mem_fixedKeys_ne_frame_tag hk').1 rfl
            · exact (mem_fixedKeys_ne_frame_tag hk').2 rfl

/-- Concrete instance of the amended C4 statement. -/
theorem filter_cameras_zero_and_negative_witness :
    filter_cameras [(5 : Nat), 6] 0 = Except.ok [] ∧
      filter_cameras [(5 : Nat), 6] (-2) =
        Except.error "ValueError: Number of samples must be non-negative" :=
  ⟨(filter_cameras_zero_and_negative [5, 6]).1,
   (filter_cameras_zero_and_negative [5, 6]).2 (-2) (by decide)⟩

/-- Concrete instance of C7: `cx` is shared by `recA` and `recB` with the
value `4`, so it is a key of the reduced mapping with that value. -/
theorem extract_common_intrinsics_exact_witness :
    dget (extract_common_intrinsics [recA, recB]) "cx" = some (Val.num 4) :=
  ((extract_common_intrinsics_exact [recA, recB]).2 (by decide) (by decide) "cx"
    (Val.num 4)).mpr (by decide)

/-- Concrete instance of C8 on `recA`, `recB`. -/
theorem extract_common_intrinsics_algebraic_witness :
    extract_common_intrinsics [recA, recB] = extract_common_intrinsics [recB, recA] ∧
      extract_common_intrinsics [recA, recA] = recA :=
  ⟨(extract_common_intrinsics_algebraic [recA, recB] [recB, recA] recA).1
      (List.Perm.swap recB recA []) (by decide),
   (extract_common_intrinsics_algebraic [recA, recB] [recB, recA] recA).2.1 (by decide)⟩

/-- Concrete instance of C6: a camera with id `c9` has no calibrated
record, so assembly fails naming `c9`; and with three calibrated records
of which the second and third both carry id `c1`, the *second* (the first
match in list order, on sensor `s1`) is the one used. -/
theorem make_transforms_matching_witness :
    make_transforms resolve0 gT0 [⟨"c9", "u"⟩] [cc0] smapAB =
        Except.error "Could not find calibrated camera with id c9" ∧
      make_transforms resolve0 gT0 [cam0] [⟨"cX", "s2"⟩, cc0, ⟨"c1", "s2"⟩] smapAB =
        Except.ok docAB :=
  ⟨make_transforms_matching.1 resolve0 gT0 [cc0] smapAB [] [] ⟨"c9", "u"⟩
      (by decide) (fun c2 hc2 => absurd hc2 (List.not_mem_nil c2)),
   make_transforms_matching.2 resolve0 gT0 smapAB cam0 [⟨"cX", "s2"⟩] [⟨"c1", "s2"⟩]
      cc0 sharedAB rfl (by decide) rfl⟩

/-- Concrete instance of C9: `fl_y` is a shared (top-level) key of the
document produced over `smapAB`, so it does not occur in the frame. -/
theorem make_transforms_shared_frame_disjoint_witness :
    "fl_y" ∉ dkeys frameAB :=
  make_transforms_shared_frame_disjoint resolve0 gT0 [cam0] [cc0] smapAB
    (by decide) docAB rfl frameAB (List.mem_singleton.mpr rfl) "fl_y" (by decide)

end OpfUtils
